import Mathlib

/-!
Verification development for the lottery-retailer ingestion / matching /
scoring pipeline (scripts/scrape_and_update_requests.py and
scripts/compute_a3_scores.py).

The Python sources are shallowly embedded: pure functions become Lean
functions over `List Char` / `String` / `ℤ` / `ℚ` / `ℝ`; Python exceptions
become `Except`; Python floats used in the decayed score become real
numbers.  Bounded recursions that Python expresses with `str.replace` /
`re.sub` loops are written with an explicit fuel argument (initialised to
the string length, which is always enough) so that every definition is
structurally recursive and kernel-evaluable.
-/

namespace Lottang

open scoped List

/-! ### Python string primitives -/

/-- The whitespace characters stripped by Python `str.strip()` and matched
by the regex class on the ASCII inputs this pipeline handles. -/
def isPyWs (c : Char) : Bool :=
  c = ' ' || c = '\t' || c = '\n' || c = '\r' || c = '\x0b' || c = '\x0c'

/-- Python `str.strip()`: drop leading and trailing whitespace. -/
def pyStrip (l : List Char) : List Char :=
  ((l.dropWhile isPyWs).reverse.dropWhile isPyWs).reverse

/-- Python `str.strip()` on `String`. -/
def pyStripStr (s : String) : String :=
  String.mk (pyStrip s.toList)

/-- Python `pat in s` (contiguous substring test) for a nonempty pattern;
for the empty pattern it agrees with Python as well (always true). -/
def hasSub (pat : List Char) : List Char → Bool
  | [] => pat.isEmpty
  | c :: cs => pat.isPrefixOf (c :: cs) || hasSub pat cs

/-- Substring test on `String`s. -/
def hasSubStr (pat s : String) : Bool :=
  hasSub pat.toList s.toList

/-- Python `s.startswith(pat)`. -/
def startswith (pat s : String) : Bool :=
  pat.toList.isPrefixOf s.toList

/-- Split on a single separator character (Python `s.split(sep)` /
`str.splitOn` for a one-character separator). -/
def splitOnChar (sep : Char) (l : List Char) : List (List Char) :=
  l.foldr
    (fun c acc =>
      match acc with
      | [] => [[c]]
      | a :: as => if c = sep then [] :: a :: as else (c :: a) :: as)
    [[]]

/-- One fuel-indexed pass of Python `s.replace(pat, "")`: delete the
leftmost occurrence of `pat`, continue after it, scanning left to right.
The fuel only needs to be at least the length of the string. -/
def pyRemoveGo (pat : List Char) : ℕ → List Char → List Char
  | 0, s => s
  | _ + 1, [] => []
  | fuel + 1, c :: cs =>
      if pat.isPrefixOf (c :: cs) && !pat.isEmpty then
        pyRemoveGo pat fuel ((c :: cs).drop pat.length)
      else
        c :: pyRemoveGo pat fuel cs

/-- Python `s.replace(pat, "")` for a nonempty pattern. -/
def pyRemove (pat s : List Char) : List Char :=
  pyRemoveGo pat s.length s

/-- Drop everything up to and including the first `')'`. Helper for the
lazy regex `\(.*?\)` (the scanned text never contains a newline where the
pipeline applies it, since all whitespace has been removed already). -/
def dropThroughRparen (l : List Char) : List Char :=
  (l.dropWhile (fun c => !(c = ')'))).drop 1

/-- Fuel-indexed model of Python `re.sub(r"\(.*?\)", "", s)`: scanning left
to right, at an `'('` that is followed by some `')'` the lazy match removes
the segment through the first such `')'`. -/
def parenSubGo : ℕ → List Char → List Char
  | 0, s => s
  | _ + 1, [] => []
  | fuel + 1, c :: cs =>
      if c = '(' && cs.contains ')' then
        parenSubGo fuel (dropThroughRparen cs)
      else
        c :: parenSubGo fuel cs

/-- Python `re.sub(r"\(.*?\)", "", s)`. -/
def parenSub (s : List Char) : List Char :=
  parenSubGo s.length s

/-- `True` when the list contains a `'('` that is followed (anywhere later)
by a `')'` — exactly the condition under which `parenSub` does anything. -/
def hasParenPair : List Char → Bool
  | [] => false
  | c :: cs => (c = '(' && cs.contains ')') || hasParenPair cs

/-! ### Python `datetime.date` -/

/-- A Python `datetime.date`: a (year, month, day) triple. -/
structure PyDate where
  year : ℤ
  month : ℕ
  day : ℕ
deriving DecidableEq, Repr

/-- Python `calendar.isleap` / the leap rule used by `datetime`. -/
def isLeap (y : ℤ) : Bool :=
  y % 4 = 0 && (¬ y % 100 = 0 || y % 400 = 0)

/-- Days of each month in a non-leap year (month 1 = January). -/
def monthDays (m : ℕ) : ℤ :=
  ([31, 28, 31, 30, 31, 30, 31, 31, 30, 31, 30, 31].getD (m - 1) 0 : ℤ)

/-- Length of a month, accounting for leap years. -/
def daysInMonth (y : ℤ) (m : ℕ) : ℤ :=
  if m = 2 && isLeap y then 29 else monthDays m

/-- `datetime._days_before_year`: days between day 0 of the proleptic
Gregorian calendar and January 1 of year `y` (Python `//` is `Int.fdiv`). -/
def daysBeforeYear (y : ℤ) : ℤ :=
  (y - 1) * 365 + Int.fdiv (y - 1) 4 - Int.fdiv (y - 1) 100 + Int.fdiv (y - 1) 400

/-- `datetime._days_before_month`. -/
def daysBeforeMonth (y : ℤ) (m : ℕ) : ℤ :=
  (((List.range (m - 1)).map (fun i => monthDays (i + 1))).sum : ℤ)
    + (if 2 < m && isLeap y then 1 else 0)

/-- Python `date.toordinal()`. -/
def toOrdinal (d : PyDate) : ℤ :=
  daysBeforeYear d.year + daysBeforeMonth d.year d.month + (d.day : ℤ)

/-- Python `(d1 - d0).days` for two dates. -/
def dateDiffDays (d1 d0 : PyDate) : ℤ :=
  toOrdinal d1 - toOrdinal d0

/-- Python `date.__lt__`: dates compare lexicographically on (y, m, d). -/
def dateLt (a b : PyDate) : Prop :=
  a.year < b.year ∨ (a.year = b.year ∧
    (a.month < b.month ∨ (a.month = b.month ∧ a.day < b.day)))

instance : DecidableRel dateLt := fun a b => by
  unfold dateLt
  infer_instance

/-- Left-pad the decimal representation of `n` with zeros to width `w`. -/
def padNat (w n : ℕ) : String :=
  let s := toString n
  String.mk (List.replicate (w - s.length) '0') ++ s

/-- Python `date.isoformat()` (for the CE dates this pipeline handles). -/
def isoformat (d : PyDate) : String :=
  padNat 4 d.year.toNat ++ "-" ++ padNat 2 d.month ++ "-" ++ padNat 2 d.day

/-- Digits-to-number, for already-validated digit strings. -/
def natOfDigits (l : List Char) : ℕ :=
  l.foldl (fun a c => a * 10 + (c.toNat - 48)) 0

/-- `parse_date` from compute_a3_scores.py:
`datetime.strptime(s.strip(), "%Y-%m-%d").date()`, with `strptime`'s
behaviour on this format: `%Y` matches exactly four digits (CPython's
TimeRE uses `\d\d\d\d`, so `"999-01-01"` raises), `%m`/`%d` match 1–2
digits, dashes are literal separators, the whole string is consumed, and
the calendar ranges of `datetime.date` are enforced.  Any violation
raises, modelled as `.error`. -/
def parse_date (s : String) : Except String PyDate :=
  match (splitOnChar '-' (pyStrip s.toList)).map String.mk with
  | [ys, ms, ds] =>
    if !(ys.length = 4) || !ys.toList.all Char.isDigit then
      .error "unparseable year"
    else if ms.length = 0 || 2 < ms.length || !ms.toList.all Char.isDigit then
      .error "unparseable month"
    else if ds.length = 0 || 2 < ds.length || !ds.toList.all Char.isDigit then
      .error "unparseable day"
    else
      let y : ℤ := (natOfDigits ys.toList : ℤ)
      let m : ℕ := natOfDigits ms.toList
      let d : ℕ := natOfDigits ds.toList
      if 1 ≤ y && 1 ≤ m && m ≤ 12 && 1 ≤ d && (d : ℤ) ≤ daysInMonth y m then
        .ok ⟨y, m, d⟩
      else
        .error "date out of range"
  | _ => .error "unparseable date"

/-- The digit part of a Python decimal int literal after the optional
sign: `digit (("_")? digit)*` — underscores are allowed only singly and
only between digits (`"1_0"` is 10, but `"_1"`, `"1_"`, `"1__0"` raise). -/
def intDigitsRest : List Char → Bool
  | [] => true
  | '_' :: rest =>
    match rest with
    | [] => false
    | d :: rest2 => d.isDigit && intDigitsRest rest2
  | d :: rest => d.isDigit && intDigitsRest rest

/-- A valid post-sign digit group of Python `int(s)`. -/
def intDigitsOk : List Char → Bool
  | [] => false
  | c :: rest => c.isDigit && intDigitsRest rest

/-- Python `int(s)` on decimal strings: optional sign, digits with
optional single grouping underscores between them, surrounding whitespace
allowed; anything else raises. -/
def pyInt (s : String) : Except String ℤ :=
  let t := pyStrip s.toList
  let core := match t with
    | '+' :: rest => (1, rest)
    | '-' :: rest => (-1, rest)
    | rest => ((1 : ℤ), rest)
  if intDigitsOk core.2 then
    .ok (core.1 * (natOfDigits (core.2.filter (fun c => !(c = '_'))) : ℤ))
  else
    .error "invalid literal for int"

/-! ### `norm` — the name/address normalizer (scrape_and_update_requests.py) -/

/-- The fixed stop-token vocabulary removed by `norm`, in source order. -/
def stop_toks : List String :=
  ["복권방", "복권", "로또", "편의점", "CU", "GS25", "세븐일레븐", "미니스톱"]

/-- `norm` from scrape_and_update_requests.py: strip, delete all
whitespace, delete lazy parenthesised segments, delete each stop token in
order, delete hyphens. -/
def norm (s : String) : String :=
  let l0 := pyStrip s.toList
  let l1 := l0.filter (fun c => !isPyWs c)
  let l2 := parenSub l1
  let l3 := stop_toks.foldl (fun acc t => pyRemove t.toList acc) l2
  let l4 := l3.filter (fun c => !(c = '-'))
  String.mk l4

/-! ### HTML table extractor (scrape_and_update_requests.py) -/

/-- `_clean`: collapse whitespace runs to a single space, then strip.
Implemented as: map every whitespace character to `' '`, merge adjacent
spaces, strip. -/
def collapseSpaces : List Char → List Char
  | [] => []
  | [c] => [c]
  | a :: b :: rest =>
      if a = ' ' && b = ' ' then collapseSpaces (b :: rest)
      else a :: collapseSpaces (b :: rest)

/-- `_clean(cell)` from the source. -/
def clean_cell (s : String) : String :=
  String.mk (pyStrip (collapseSpaces (s.toList.map (fun c => if isPyWs c then ' ' else c))))

/-- `_is_choice`: the cell mentions one of the choice-type tags. -/
def is_choice (s : String) : Bool :=
  hasSubStr "자동" s || hasSubStr "수동" s || hasSubStr "반자동" s

/-- `_looks_addr`: `re.search(r"(시|군|구|로|길|동|면|리|번지|호)\s*\d*", s)`.
Since `\s*\d*` can match the empty string, the regex succeeds exactly when
one of the alternation tokens occurs in `s`. -/
def looks_addr (s : String) : Bool :=
  ["시", "군", "구", "로", "길", "동", "면", "리", "번지", "호"].any
    (fun t => hasSubStr t s)

/-- Python `sep.join(l)`. -/
def pyJoin (sep : String) (l : List String) : String :=
  String.mk (List.intercalate sep.toList (l.map String.toList))

/-- Python `max(l, key=len)` keeps the first element of maximal length;
`""` for the empty list (the source guards against that separately). -/
def maxByLen : List String → String
  | [] => ""
  | x :: xs => xs.foldl (fun acc c => if acc.length < c.length then c else acc) x

/-- The source site's domain string, treated as an ad/navigation artifact. -/
def siteDomain : String := "dhlottery.co.kr"

/-- `_guess_columns(tds)`: infer (name, choice, addr) from one row's cell
texts, mirroring the source line by line. -/
def guess_columns (tds : List String) : Option (String × String × String) :=
  let cells0 := (tds.map clean_cell).filter (fun c => !(c = ""))
  match cells0 with
  | [] => Option.none
  | c0 :: rest =>
    let cells := if c0.toList.all Char.isDigit then rest else c0 :: rest
    if cells.isEmpty then Option.none
    else
      let choice := ((cells.find? is_choice).getD "")
      let addr0 := ((cells.find? looks_addr).getD "")
      let leftovers0 := cells.filter (fun c => !(c = choice || c = addr0))
      let leftovers := leftovers0.filter (fun c => !hasSubStr siteDomain c)
      let name := maxByLen leftovers
      let addr :=
        if addr0 = "" then
          ((cells.filter (fun c => !(c = choice) && looks_addr c)).head?).getD ""
        else addr0
      if name = "" || addr = "" then Option.none
      else Option.some (name, choice, addr)

/-- One parsed `table.tbl_data` element: the joined caption/header text and
the cell texts of each body row (each cell text already `.strip()`ed, as in
the source's `tds` construction). -/
structure SrcTable where
  head : String
  trs : List (List String)

/-- The table-level rank hint from caption/header text. -/
def rank_hint (head : String) : ℕ :=
  if hasSubStr "1등" head then 1 else if hasSubStr "2등" head then 2 else 0

/-- The body of fetch_table's per-row loop: emit `(name, choice, addr,
rank)` or drop the row. -/
def extract_row (hint : ℕ) (tds : List String) : Option (String × String × String × ℕ) :=
  if tds.isEmpty then Option.none
  else
    match guess_columns tds with
    | Option.none => Option.none
    | Option.some (name, choice, addr) =>
      let flat := pyJoin " " tds
      let rank :=
        if hasSubStr "1등" flat then 1
        else if hint = 0 && hasSubStr "2등" flat then 2
        else hint
      if !(rank = 1 || rank = 2) then Option.none
      else if hasSubStr siteDomain name || hasSubStr siteDomain addr then Option.none
      else Option.some (name, choice, addr, rank)

/-- The row-extraction part of `fetch_table`, over the parsed tables of one
draw page (the HTTP fetch itself is an external collaborator). -/
def fetch_table_rows (tables : List SrcTable) : List (String × String × String × ℕ) :=
  tables.flatMap (fun t => t.trs.filterMap (extract_row (rank_hint t.head)))

/-! ### Ledger accumulator (main routine of scrape_and_update_requests.py) -/

/-- One persisted ledger row (`dhlottery_stores.csv`). -/
structure LRow where
  draw : ℤ
  draw_date : String
  rank : ℤ
  name : String
  choice_type : String
  address : String
deriving DecidableEq, Repr

/-- The set of draw ids already present (`set(df["draw"].unique())`). -/
def drawsOf (L : List LRow) : Finset ℤ :=
  (L.map (fun r => r.draw)).toFinset

/-- Python `range(a, b)` over integers, as an ascending list. -/
def intRange (a b : ℤ) : List ℤ :=
  (List.range (b - a).toNat).map (fun (i : ℕ) => a + (i : ℤ))

/-- `est = base_draw + ((today - base_d).days // 7)`. -/
def estDraw (base_draw : ℤ) (base_d today : PyDate) : ℤ :=
  base_draw + Int.fdiv (dateDiffDays today base_d) 7

/-- The fetch set: draws in `[min(have | {est}), est]` missing from the
ledger; just `[est]` when the ledger is empty. -/
def toFetch (L : List LRow) (est : ℤ) : List ℤ :=
  if drawsOf L = ∅ then [est]
  else
    (intRange ((insert est (drawsOf L)).min' ⟨est, Finset.mem_insert_self est (drawsOf L)⟩)
        (est + 1)).filter
      (fun d => !(decide (d ∈ drawsOf L)))

/-- Lexicographic key of `df.sort_values(["draw", "rank", "name"])`. -/
def rowKey (r : LRow) : ℤ ×ₗ (ℤ ×ₗ String) :=
  toLex (r.draw, toLex (r.rank, r.name))

/-- The sort order used when the ledger snapshot is rewritten. -/
def rowLe (a b : LRow) : Prop := rowKey a ≤ rowKey b

instance : DecidableRel rowLe := fun a b => by
  unfold rowLe
  infer_instance

instance : IsTotal LRow rowLe := ⟨fun a b => le_total (rowKey a) (rowKey b)⟩

instance : IsTrans LRow rowLe := ⟨fun _ _ _ h1 h2 => le_trans h1 h2⟩

/-- `df.sort_values(["draw", "rank", "name"])` — pandas' multi-column sort
is stable (`np.lexsort`), modelled by a stable insertion sort. -/
def sortLedger (L : List LRow) : List LRow :=
  List.insertionSort rowLe L

/-- A record extracted from a draw page: (name, choice, addr, rank). -/
def RawRec : Type := String × String × String × ℤ

/-- Build a ledger row from one extracted record of draw `d`. -/
def rawToRow (d : ℤ) (dd : String) (x : RawRec) : LRow :=
  ⟨d, dd, x.2.2.2, x.1, x.2.1, x.2.2.1⟩

/-- The scrape loop: fetch each draw in order; a page-fetch failure
(`raise_for_status`) propagates immediately and discards everything
collected so far in this invocation. -/
def fetchAll (f : ℤ → Except Unit (List RawRec)) (dates : ℤ → String) :
    List ℤ → Except Unit (List LRow)
  | [] => .ok []
  | d :: ds =>
    match f d with
    | .error e => .error e
    | .ok rs =>
      match fetchAll f dates ds with
      | .error e => .error e
      | .ok rest => .ok (rs.map (rawToRow d (dates d)) ++ rest)

/-- One ingestion run over a fallible page source: on success the new
sorted snapshot, on a page-fetch failure the propagated error (the ledger
file is written only after the whole loop). -/
def ingestE (L : List LRow) (f : ℤ → Except Unit (List RawRec)) (dates : ℤ → String)
    (est : ℤ) : Except Unit (List LRow) :=
  match fetchAll f dates (toFetch L est) with
  | .error e => .error e
  | .ok newRows => .ok (sortLedger (L ++ newRows))

/-- The ledger file content after a run: rewritten on success, untouched
when the run aborts (the `to_csv` call comes after the fetch loop). -/
def persisted_ledger (L : List LRow) (f : ℤ → Except Unit (List RawRec))
    (dates : ℤ → String) (est : ℤ) : List LRow :=
  match ingestE L f dates est with
  | .ok L1 => L1
  | .error _ => L

/-- One ingestion run against a source whose page fetches all succeed. -/
def ingest (L : List LRow) (f : ℤ → List RawRec) (dates : ℤ → String) (est : ℤ) :
    List LRow :=
  sortLedger (L ++ (toFetch L est).flatMap (fun d => (f d).map (rawToRow d (dates d))))

/-! ### Reconciliation matcher (main routine, wins.csv / wins_unmatched.csv) -/

/-- One output row of the matcher. -/
structure MRow where
  store_id : String
  date : String
  rank : ℤ
  draw_no : ℤ
  name : String
  address : String
deriving DecidableEq, Repr

/-- Python `A.get(key) or B.get(key, "")` with its truthiness semantics:
an absent or empty alias entry falls through to the index. -/
def pySidLookup (aliasT idx : String → Option String) (key : String) : String :=
  match aliasT key with
  | Option.some v => if v = "" then ((idx key).getD "") else v
  | Option.none => (idx key).getD ""

/-- The normalized join key `norm(name) + "|" + norm(address)`. -/
def normKey (name address : String) : String :=
  norm name ++ "|" ++ norm address

/-- The matcher's per-row output record. -/
def mkMatchRow (aliasT idx : String → Option String) (r : LRow) : MRow :=
  ⟨pySidLookup aliasT idx (normKey r.name r.address),
   r.draw_date, r.rank, r.draw, r.name, r.address⟩

/-- The matching loop: route every ledger row to Matched (nonempty store
id) or Unmatched (empty store id), preserving order. -/
def match_rows (df : List LRow) (aliasT idx : String → Option String) :
    List MRow × List MRow :=
  match df with
  | [] => ([], [])
  | r :: rest =>
    let p := match_rows rest aliasT idx
    let row := mkMatchRow aliasT idx r
    if row.store_id = "" then (p.1, row :: p.2) else (row :: p.1, p.2)

/-! ### Events reader (compute_a3_scores.py, read_events_csv) -/

/-- Split a CSV line on commas (the pipeline's fields are unquoted). -/
def splitComma (s : String) : List String :=
  (splitOnChar ',' s.toList).map String.mk

/-- `csv.DictReader` row access: the value of column `k` for a data line,
from the header's column order (missing trailing fields behave like
Python's `None`, i.e. `Option.none`). -/
def colGet (hdr fields : List String) (k : String) : Option String :=
  (hdr.zip fields).lookup k

/-- One iteration of the `read_events_csv` loop: skip the row when the
(stripped) `store_id` is empty, otherwise parse the date (fatal on
failure), then the rank (fatal on failure). -/
def procRow (hdr : List String) (line : String) :
    Except String (Option (String × PyDate × ℤ)) :=
  if pyStripStr ((colGet hdr (splitComma line) "store_id").getD "") = "" then .ok Option.none
  else
    match colGet hdr (splitComma line) "date" with
    | Option.none => .error "date column missing"
    | Option.some dstr =>
      match parse_date dstr with
      | .error e => .error e
      | .ok d =>
        match colGet hdr (splitComma line) "rank" with
        | Option.none => .error "rank column missing"
        | Option.some rstr =>
          match pyInt rstr with
          | .error e => .error e
          | .ok rk =>
            .ok (Option.some
              (pyStripStr ((colGet hdr (splitComma line) "store_id").getD ""), d, rk))

/-- The loop of `read_events_csv` over the data lines. -/
def procRows (hdr : List String) : List String → Except String (List (String × PyDate × ℤ))
  | [] => .ok []
  | l :: ls =>
    match procRow hdr l with
    | .error e => .error e
    | .ok o =>
      match procRows hdr ls with
      | .error e => .error e
      | .ok rest =>
        .ok (match o with
             | Option.some ev => ev :: rest
             | Option.none => rest)

/-- `csv.DictReader` over the comment-filtered lines: the first remaining
line is the header, an empty input yields no rows. -/
def readKept : List String → Except String (List (String × PyDate × ℤ))
  | [] => .ok []
  | header :: rows => procRows (splitComma header) rows

/-- `read_events_csv`: lines whose raw text starts with `#` are filtered
out before the CSV reader sees them; the first remaining line is the
header. -/
def read_events_csv (lines : List String) : Except String (List (String × PyDate × ℤ)) :=
  readKept (lines.filter (fun l => !startswith "#" l))

/-- The `defaultdict(list)` of events keyed by store id, with
`events.get(sid, [])` lookup semantics. -/
def events_of (es : List (String × PyDate × ℤ)) : String → List (PyDate × ℤ) :=
  fun sid => (es.filter (fun e => e.1 = sid)).map (fun e => e.2)

/-! ### Recency-weighted scorer (compute_a3_scores.py) -/

/-- `AVG_DAYS_PER_MONTH`. -/
def AVG_DAYS_PER_MONTH : ℝ := 30.4375

/-- `months_elapsed(d1, d0) = (d1 - d0).days / 30.4375`. -/
noncomputable def months_elapsed (d1 d0 : PyDate) : ℝ :=
  (dateDiffDays d1 d0 : ℝ) / AVG_DAYS_PER_MONTH

/-- A JSON property value as it appears in the registry GeoJSON. -/
inductive PVal where
  | s : String → PVal
  | i : ℤ → PVal
  | r : ℝ → PVal
  | b : Bool → PVal
  | null : PVal

/-- One registry feature: an opaque geometry and a property table. -/
structure Feature where
  geometry : PVal
  props : List (String × PVal)

/-- Python dict assignment `p[k] = v` on an association list: overwrite in
place or append. -/
def setProp (k : String) (v : PVal) : List (String × PVal) → List (String × PVal)
  | [] => [(k, v)]
  | (k0, v0) :: rest => if k0 = k then (k, v) :: rest else (k0, v0) :: setProp k v rest

/-- Python `p.get(k)`. -/
def getProp (k : String) (ps : List (String × PVal)) : Option PVal :=
  ps.lookup k

/-- The in-loop accumulator of `compute_scores`. -/
structure Agg where
  score : ℝ
  win1 : ℕ
  win2 : ℕ
  last : Option PyDate
  r12w1 : ℕ
  r12w2 : ℕ

/-- One event's contribution, mirroring the inner loop of
`compute_scores`.  The recency test `(today - d).days <= 365.25` compares
an integer with the exactly-representable float `365.25`, modelled in ℚ. -/
noncomputable def stepEvent (today : PyDate) (half_life_months : ℝ) (a : Agg)
    (e : PyDate × ℤ) : Agg :=
  let d := e.1
  let rank := e.2
  let weight : ℝ := (1 / 2 : ℝ) ^ (months_elapsed today d / half_life_months)
  let base : ℝ := if rank = 1 then 5 else 1
  let inWindow : Prop := ((dateDiffDays today d : ℚ) ≤ 365.25)
  { score := a.score + base * weight
    win1 := if rank = 1 then a.win1 + 1 else a.win1
    win2 := if rank = 1 then a.win2 else a.win2 + 1
    last := match a.last with
            | Option.none => Option.some d
            | Option.some l => if dateLt l d then Option.some d else Option.some l
    r12w1 := if decide inWindow && decide (rank = 1) then a.r12w1 + 1 else a.r12w1
    r12w2 := if decide inWindow && !decide (rank = 1) then a.r12w2 + 1 else a.r12w2 }

/-- The per-feature event fold of `compute_scores`. -/
noncomputable def aggEvents (today : PyDate) (half_life_months : ℝ)
    (evs : List (PyDate × ℤ)) : Agg :=
  evs.foldl (stepEvent today half_life_months) ⟨0, 0, 0, Option.none, 0, 0⟩

/-- Python `round(x, 6)`: the score is rounded to 6 decimal places on
output (Python uses round-half-to-even on floats; the two agree off exact
half-microunit ties, and no theorem below sits on such a tie). -/
noncomputable def round6 (x : ℝ) : ℝ :=
  ((round (x * 1000000) : ℤ) : ℝ) / 1000000

/-- One flat row of `scores_a3_summary.csv`. -/
structure SummaryRow where
  store_id : Option PVal
  win1 : ℕ
  win2 : ℕ
  a3_score : ℝ
  last_win_date : String
  recent12m_win1 : ℕ
  recent12m_win2 : ℕ

/-- The six scorer-derived property keys. -/
def derivedKeys : List String :=
  ["win1", "win2", "score", "last_win_date", "recent12m_win1", "recent12m_win2"]

/-- The events list for a feature: `events.get(sid, [])` where `sid` is
whatever sits under `"store_id"` (only a string key can hit the dict). -/
def evsFor (ev : String → List (PyDate × ℤ)) (sid : Option PVal) : List (PyDate × ℤ) :=
  match sid with
  | Option.some (PVal.s s) => ev s
  | _ => []

/-- The six property writes of `compute_scores`, in source order. -/
noncomputable def enrichProps (a : Agg) (lastVal : PVal)
    (ps : List (String × PVal)) : List (String × PVal) :=
  setProp "recent12m_win2" (PVal.i a.r12w2)
    (setProp "recent12m_win1" (PVal.i a.r12w1)
      (setProp "last_win_date" lastVal
        (setProp "score" (PVal.r (round6 a.score))
          (setProp "win2" (PVal.i a.win2)
            (setProp "win1" (PVal.i a.win1) ps)))))

/-- The per-feature body of `compute_scores`: mutate the six derived
properties and emit the summary row. -/
noncomputable def enrich (ev : String → List (PyDate × ℤ)) (today : PyDate)
    (half_life_months : ℝ) (f : Feature) : Feature × SummaryRow :=
  let sid := getProp "store_id" f.props
  let a := aggEvents today half_life_months (evsFor ev sid)
  let lastVal : PVal := match a.last with
    | Option.some l => PVal.s (isoformat l)
    | Option.none => PVal.null
  let lastStr : String := match a.last with
    | Option.some l => isoformat l
    | Option.none => ""
  (⟨f.geometry, enrichProps a lastVal f.props⟩,
   ⟨sid, a.win1, a.win2, round6 a.score, lastStr, a.r12w1, a.r12w2⟩)

/-- `compute_scores`: the enriched registry copy and the flat summary. -/
noncomputable def compute_scores (feats : List Feature)
    (ev : String → List (PyDate × ℤ)) (today : PyDate) (half_life_months : ℝ) :
    List Feature × List SummaryRow :=
  ((feats.map (enrich ev today half_life_months)).map Prod.fst,
   (feats.map (enrich ev today half_life_months)).map Prod.snd)

/-! ### Helper lemmas on the string primitives -/

theorem pyRemoveGo_sublist (pat : List Char) :
    ∀ (fuel : ℕ) (s : List Char), pyRemoveGo pat fuel s <+ s := by
  intro fuel
  induction fuel with
  | zero => intro s; simp [pyRemoveGo]
  | succ n ih =>
    intro s
    match s with
    | [] => simp [pyRemoveGo]
    | c :: cs =>
      rw [pyRemoveGo]
      by_cases h : (pat.isPrefixOf (c :: cs) && !pat.isEmpty) = true
      · rw [if_pos h]
        exact (ih _).trans (List.drop_sublist _ _)
      · rw [if_neg h]
        exact (ih cs).cons₂ c

theorem pyRemove_sublist (pat s : List Char) : pyRemove pat s <+ s :=
  pyRemoveGo_sublist pat s.length s

theorem pyRemoveGo_eq_self (pat : List Char) :
    ∀ (fuel : ℕ) (s : List Char), hasSub pat s = false → pyRemoveGo pat fuel s = s := by
  intro fuel
  induction fuel with
  | zero => intro s _; simp [pyRemoveGo]
  | succ n ih =>
    intro s hs
    match s with
    | [] => simp [pyRemoveGo]
    | c :: cs =>
      rw [hasSub, Bool.or_eq_false_iff] at hs
      rw [pyRemoveGo, if_neg, ih cs hs.2]
      simp [hs.1]

theorem pyRemove_eq_self (pat s : List Char) (h : hasSub pat s = false) :
    pyRemove pat s = s :=
  pyRemoveGo_eq_self pat s.length s h

theorem dropThroughRparen_sublist (l : List Char) : dropThroughRparen l <+ l :=
  (List.drop_sublist _ _).trans (List.dropWhile_sublist _)

theorem parenSubGo_sublist : ∀ (fuel : ℕ) (s : List Char), parenSubGo fuel s <+ s := by
  intro fuel
  induction fuel with
  | zero => intro s; simp [parenSubGo]
  | succ n ih =>
    intro s
    match s with
    | [] => simp [parenSubGo]
    | c :: cs =>
      rw [parenSubGo]
      by_cases h : (c = '(' && cs.contains ')') = true
      · rw [if_pos h]
        exact ((ih _).trans (dropThroughRparen_sublist cs)).cons c
      · rw [if_neg h]
        exact (ih cs).cons₂ c

theorem parenSub_sublist (s : List Char) : parenSub s <+ s :=
  parenSubGo_sublist s.length s

theorem hasParenPair_true_of_sublist {t s : List Char} (hsub : t <+ s)
    (ht : hasParenPair t = true) : hasParenPair s = true := by
  induction hsub with
  | slnil => exact ht
  | cons a _ ih =>
    rw [hasParenPair, Bool.or_eq_true]
    exact Or.inr (ih ht)
  | @cons₂ t1 s1 a hsub ih =>
    rw [hasParenPair, Bool.or_eq_true] at ht ⊢
    rcases ht with h | h
    · rw [Bool.and_eq_true] at h
      refine Or.inl ?_
      rw [Bool.and_eq_true, h.1]
      refine ⟨rfl, ?_⟩
      have h2 : ')' ∈ t1 := by
        have h21 := h.2
        rw [List.contains, List.elem_iff] at h21
        exact h21
      rw [List.contains, List.elem_iff]
      exact hsub.subset h2
    · exact Or.inr (ih h)

theorem hasParenPair_false_of_sublist {t s : List Char} (hsub : t <+ s)
    (hs : hasParenPair s = false) : hasParenPair t = false := by
  by_contra h
  rw [Bool.not_eq_false] at h
  rw [hasParenPair_true_of_sublist hsub h] at hs
  exact absurd hs (by simp)

theorem parenSubGo_pairFree :
    ∀ (fuel : ℕ) (s : List Char), s.length ≤ fuel →
      hasParenPair (parenSubGo fuel s) = false := by
  intro fuel
  induction fuel with
  | zero =>
    intro s hs
    rw [Nat.le_zero, List.length_eq_zero] at hs
    subst hs
    simp [parenSubGo, hasParenPair]
  | succ n ih =>
    intro s hs
    match s with
    | [] => simp [parenSubGo, hasParenPair]
    | c :: cs =>
      rw [List.length_cons, Nat.succ_le_succ_iff] at hs
      rw [parenSubGo]
      by_cases h : (c = '(' && cs.contains ')') = true
      · rw [if_pos h]
        exact ih _ ((dropThroughRparen_sublist cs).length_le.trans hs)
      · rw [if_neg h]
        rw [hasParenPair, Bool.or_eq_false_iff]
        refine ⟨?_, ih cs hs⟩
        rw [Bool.not_eq_true] at h
        rw [Bool.and_eq_false_iff] at h ⊢
        rcases h with h | h
        · exact Or.inl h
        · refine Or.inr ?_
          by_contra hm
          rw [Bool.not_eq_false, List.contains, List.elem_iff] at hm
          have hmem : cs.contains ')' = true := by
            rw [List.contains, List.elem_iff]
            exact (parenSubGo_sublist n cs).subset hm
          rw [hmem] at h
          exact absurd h (by simp)

theorem parenSubGo_eq_self :
    ∀ (fuel : ℕ) (s : List Char), hasParenPair s = false → parenSubGo fuel s = s := by
  intro fuel
  induction fuel with
  | zero => intro s _; simp [parenSubGo]
  | succ n ih =>
    intro s hs
    match s with
    | [] => simp [parenSubGo]
    | c :: cs =>
      rw [hasParenPair, Bool.or_eq_false_iff] at hs
      rw [parenSubGo, hs.1]
      simp [ih cs hs.2]

theorem parenSub_eq_self (s : List Char) (h : hasParenPair s = false) :
    parenSub s = s :=
  parenSubGo_eq_self s.length s h

theorem dropWhile_eq_self_of_all {p : Char → Bool} {l : List Char}
    (h : ∀ c ∈ l, p c = false) : l.dropWhile p = l := by
  match l with
  | [] => simp
  | c :: cs =>
    rw [List.dropWhile_cons, h c (List.mem_cons_self c cs)]
    simp

theorem pyStrip_eq_self {l : List Char} (h : ∀ c ∈ l, isPyWs c = false) :
    pyStrip l = l := by
  rw [pyStrip, dropWhile_eq_self_of_all h, dropWhile_eq_self_of_all, List.reverse_reverse]
  intro c hc
  exact h c (List.mem_reverse.mp hc)

theorem foldl_pyRemove_sublist (toks : List String) :
    ∀ acc : List Char, (toks.foldl (fun acc t => pyRemove t.toList acc) acc) <+ acc := by
  induction toks with
  | nil => intro acc; simp
  | cons t ts ih =>
    intro acc
    rw [List.foldl_cons]
    exact (ih (pyRemove t.toList acc)).trans (pyRemove_sublist t.toList acc)

theorem foldl_pyRemove_eq_self (toks : List String) (acc : List Char)
    (h : ∀ t ∈ toks, hasSub t.toList acc = false) :
    toks.foldl (fun acc t => pyRemove t.toList acc) acc = acc := by
  induction toks with
  | nil => simp
  | cons t ts ih =>
    rw [List.foldl_cons, pyRemove_eq_self t.toList acc (h t (List.mem_cons_self t ts))]
    exact ih (fun u hu => h u (List.mem_cons_of_mem t hu))

theorem toList_mk (l : List Char) : (String.mk l).toList = l := rfl

theorem mk_toList (s : String) : String.mk s.toList = s := by
  cases s
  rfl

/-- Every character of `norm x` is non-whitespace and is not a hyphen, and
`norm x` contains no `'('` that is later followed by a `')'`. -/
theorem norm_output_facts (x : String) :
    (∀ c ∈ (norm x).toList, isPyWs c = false ∧ ¬ c = '-')
    ∧ hasParenPair (norm x).toList = false := by
  rw [norm]
  simp only [toList_mk]
  set l1 := (pyStrip x.toList).filter (fun c => !isPyWs c) with hl1
  set l2 := parenSub l1 with hl2
  set l3 := stop_toks.foldl (fun acc t => pyRemove t.toList acc) l2 with hl3
  have h21 : l2 <+ l1 := parenSub_sublist l1
  have h32 : l3 <+ l2 := foldl_pyRemove_sublist stop_toks l2
  have h43 : l3.filter (fun c => !(c = '-')) <+ l3 := List.filter_sublist l3
  constructor
  · intro c hc
    have hc3 : c ∈ l3 := h43.subset hc
    have hc1 : c ∈ l1 := h21.subset (h32.subset hc3)
    constructor
    · have := List.of_mem_filter hc1
      rw [Bool.not_eq_true'] at this
      exact this
    · have := List.of_mem_filter hc
      rw [Bool.not_eq_true'] at this
      intro heq
      rw [heq] at this
      simp at this
  · have hp2 : hasParenPair l2 = false := parenSubGo_pairFree l1.length l1 le_rfl
    exact hasParenPair_false_of_sublist (h43.trans h32) hp2

/-- `norm`, written out as one rfl-equal pipeline expression. -/
theorem norm_expand (s : String) :
    norm s = String.mk
      ((stop_toks.foldl (fun acc t => pyRemove t.toList acc)
          (parenSub ((pyStrip s.toList).filter (fun c => !isPyWs c)))).filter
        (fun c => !(c = '-'))) := rfl

/-- C5 counterexample: `norm` is not idempotent.  `norm "C-U" = "CU"`
(hyphen removal runs after stop-token removal and manufactures the stop
token `"CU"`), while `norm "CU" = ""`. -/
theorem C5_norm_not_idempotent_cex :
    ¬ (norm (norm "C-U") = norm "C-U") := by decide

/-- C5 (amended): `norm (norm x) = norm x` holds for every `x` whose
normalized form contains no occurrence of a stop token; it fails in
general because removing hyphens (or earlier stop tokens) can create a
fresh stop-token occurrence that only a second pass would delete. -/
theorem C5_norm_idempotent_amended (x : String)
    (h : ∀ t ∈ stop_toks, hasSub t.toList (norm x).toList = false) :
    norm (norm x) = norm x := by
  have hf := norm_output_facts x
  have hws : ∀ c ∈ (norm x).toList, isPyWs c = false := fun c hc => (hf.1 c hc).1
  have hhy : ∀ c ∈ (norm x).toList, ¬ c = '-' := fun c hc => (hf.1 c hc).2
  have h1 : pyStrip (norm x).toList = (norm x).toList := pyStrip_eq_self hws
  have h2 : ((norm x).toList).filter (fun c => !isPyWs c) = (norm x).toList := by
    refine List.filter_eq_self.mpr ?_
    intro c hc
    rw [hws c hc]
    rfl
  have h3 : parenSub (norm x).toList = (norm x).toList :=
    parenSub_eq_self _ hf.2
  have h4 : stop_toks.foldl (fun acc t => pyRemove t.toList acc) (norm x).toList
      = (norm x).toList :=
    foldl_pyRemove_eq_self stop_toks _ h
  have h5 : ((norm x).toList).filter (fun c => !(c = '-')) = (norm x).toList := by
    refine List.filter_eq_self.mpr ?_
    intro c hc
    simp [hhy c hc]
  rw [norm_expand (norm x), h1, h2, h3, h4, h5]
  exact mk_toList (norm x)

/-- Witness for C5 (amended) at a token-free concrete input. -/
theorem C5_norm_idempotent_amended_witness :
    (∀ t ∈ stop_toks, hasSub t.toList (norm "abc").toList = false)
    ∧ norm (norm "abc") = norm "abc" :=
  ⟨by decide, C5_norm_idempotent_amended "abc" (by decide)⟩

/-! ### C3 — draw-range selection -/

theorem mem_intRange {a b d : ℤ} : d ∈ intRange a b ↔ a ≤ d ∧ d < b := by
  unfold intRange
  rw [List.mem_map]
  constructor
  · rintro ⟨i, hi, rfl⟩
    rw [List.mem_range] at hi
    omega
  · rintro ⟨h1, h2⟩
    refine ⟨(d - a).toNat, ?_, ?_⟩
    · rw [List.mem_range]
      omega
    · omega

theorem mem_toFetch_nonempty {L : List LRow} {est d : ℤ} (h : ¬ drawsOf L = ∅) :
    d ∈ toFetch L est ↔
      ((insert est (drawsOf L)).min' ⟨est, Finset.mem_insert_self est (drawsOf L)⟩ ≤ d
        ∧ d ≤ est ∧ d ∉ drawsOf L) := by
  rw [toFetch, if_neg h]
  simp only [List.mem_filter, mem_intRange, Bool.not_eq_true', decide_eq_false_iff_not]
  constructor
  · rintro ⟨⟨h1, h2⟩, h3⟩
    exact ⟨h1, by omega, h3⟩
  · rintro ⟨h1, h2, h3⟩
    exact ⟨⟨h1, by omega⟩, h3⟩

theorem toFetch_empty {L : List LRow} {est : ℤ} (h : drawsOf L = ∅) :
    toFetch L est = [est] := by
  rw [toFetch, if_pos h]

/-- C3: the estimated current draw id is `base_draw + (today − base_date).days // 7`;
for a nonempty ledger the fetch set is exactly the draws in
`[min(present ∪ {est}), est]` that are not present, and for an empty
ledger it is exactly `[est]`; concretely, base_draw=1184,
base_date=2025-08-09, today=2025-08-23 gives estimated draw 1186, and with
an empty ledger the fetch set is `[1186]`. -/
theorem C3_draw_range_selection :
    (∀ (base_draw : ℤ) (base_d today : PyDate),
        estDraw base_draw base_d today = base_draw + Int.fdiv (dateDiffDays today base_d) 7)
    ∧ (∀ (L : List LRow) (est d : ℤ), ¬ drawsOf L = ∅ →
        (d ∈ toFetch L est ↔
          ((insert est (drawsOf L)).min' ⟨est, Finset.mem_insert_self est (drawsOf L)⟩ ≤ d
            ∧ d ≤ est ∧ d ∉ drawsOf L)))
    ∧ (∀ (L : List LRow) (est : ℤ), drawsOf L = ∅ → toFetch L est = [est])
    ∧ estDraw 1184 ⟨2025, 8, 9⟩ ⟨2025, 8, 23⟩ = 1186
    ∧ toFetch [] (estDraw 1184 ⟨2025, 8, 9⟩ ⟨2025, 8, 23⟩) = [1186] :=
  ⟨fun _ _ _ => rfl,
   fun _ _ _ h => mem_toFetch_nonempty h,
   fun _ _ h => toFetch_empty h,
   by decide,
   by decide⟩

/-- Witness for C3 at a concrete one-row ledger: draw 1185 is in the fetch
set for estimated draw 1186 when only draw 1184 is present. -/
theorem C3_draw_range_selection_witness :
    (1185 : ℤ) ∈ toFetch [⟨1184, "2025-08-09", 1, "a", "", "x"⟩] 1186 :=
  (C3_draw_range_selection.2.1 [⟨1184, "2025-08-09", 1, "a", "", "x"⟩] 1186 1185
    (by decide)).mpr (by decide)

/-! ### C4 — matcher totality -/

/-- C4: the matcher is total and exact — every ledger row yields exactly
one output row; Matched collects exactly the rows whose resolved store id
is nonempty, Unmatched exactly those with the empty store id, both in
ledger order, and the two sizes add up to the ledger size. -/
theorem match_filter_length (l : List MRow) :
    (l.filter (fun m => !(m.store_id = ""))).length
      + (l.filter (fun m => m.store_id = "")).length = l.length := by
  induction l with
  | nil => simp
  | cons x xs ih =>
    by_cases h : x.store_id = "" <;> simp [h] <;> omega

theorem C4_matcher_totality (df : List LRow) (aliasT idx : String → Option String) :
    (match_rows df aliasT idx).1.length + (match_rows df aliasT idx).2.length = df.length
    ∧ (match_rows df aliasT idx).1
        = (df.map (mkMatchRow aliasT idx)).filter (fun m => !(m.store_id = ""))
    ∧ (match_rows df aliasT idx).2
        = (df.map (mkMatchRow aliasT idx)).filter (fun m => m.store_id = "") := by
  have hchar : (match_rows df aliasT idx).1
        = (df.map (mkMatchRow aliasT idx)).filter (fun m => !(m.store_id = ""))
      ∧ (match_rows df aliasT idx).2
        = (df.map (mkMatchRow aliasT idx)).filter (fun m => m.store_id = "") := by
    induction df with
    | nil => simp [match_rows]
    | cons r rest ih =>
      by_cases h : (mkMatchRow aliasT idx r).store_id = ""
      · constructor <;> simp [match_rows, h, ih.1, ih.2]
      · constructor <;> simp [match_rows, h, ih.1, ih.2]
  refine ⟨?_, hchar.1, hchar.2⟩
  rw [hchar.1, hchar.2, match_filter_length, List.length_map]

/-! ### C10 — comment lines and blank-store-id rows are skipped -/

/-- C10: a raw line starting with `#` is invisible to the reader wherever
it occurs, and a data row whose `store_id` field strips to the empty
string is skipped without error and contributes nothing; the reader is the
comment filter followed by the row loop on the kept tail. -/
theorem C10_comment_and_blank_sid_skipped :
    (∀ (pre post : List String) (l : String), startswith "#" l = true →
        read_events_csv (pre ++ l :: post) = read_events_csv (pre ++ post))
    ∧ (∀ (hdr : List String) (pre post : List String) (r : String),
        pyStripStr ((colGet hdr (splitComma r) "store_id").getD "") = "" →
        procRows hdr (pre ++ r :: post) = procRows hdr (pre ++ post))
    ∧ (∀ (lines : List String) (h : String) (rest : List String),
        lines.filter (fun l => !startswith "#" l) = h :: rest →
        read_events_csv lines = procRows (splitComma h) rest) := by
  refine ⟨?_, ?_, ?_⟩
  · intro pre post l hl
    rw [read_events_csv, read_events_csv]
    congr 1
    simp [List.filter_append, List.filter_cons, hl]
  · intro hdr pre post r hr
    induction pre with
    | nil =>
      have hrow : procRow hdr r = .ok Option.none := by
        rw [procRow, if_pos hr]
      show procRows hdr (r :: post) = procRows hdr post
      rw [procRows, hrow]
      cases hpost : procRows hdr post <;> simp
    | cons p pre ih =>
      show procRows hdr (p :: (pre ++ r :: post)) = procRows hdr (p :: (pre ++ post))
      simp only [procRows, ih]
  · intro lines h rest hfilter
    rw [read_events_csv, hfilter]
    rfl

/-- Witness for C10, at a concrete event table. -/
theorem C10_comment_and_blank_sid_skipped_witness :
    read_events_csv ["# comment", "store_id,date,rank", "S1,2024-01-01,1"]
      = read_events_csv ["store_id,date,rank", "S1,2024-01-01,1"]
    ∧ procRows ["store_id", "date", "rank"] ["  ,not-a-date,zz", "S1,2024-01-01,1"]
      = procRows ["store_id", "date", "rank"] ["S1,2024-01-01,1"]
    ∧ read_events_csv ["store_id,date,rank", "S1,2024-01-01,1"]
      = procRows (splitComma "store_id,date,rank") ["S1,2024-01-01,1"] :=
  ⟨C10_comment_and_blank_sid_skipped.1 [] ["store_id,date,rank", "S1,2024-01-01,1"]
      "# comment" (by decide),
   C10_comment_and_blank_sid_skipped.2.1 ["store_id", "date", "rank"] []
      ["S1,2024-01-01,1"] "  ,not-a-date,zz" (by decide),
   C10_comment_and_blank_sid_skipped.2.2 ["store_id,date,rank", "S1,2024-01-01,1"]
      "store_id,date,rank" ["S1,2024-01-01,1"] (by decide)⟩

/-! ### C6 — a row with an unparseable date is fatal, not partially counted -/

theorem procRows_error_of_mem (hdr : List String) (rows : List String) (r : String)
    (hmem : r ∈ rows) (he : ∃ e, procRow hdr r = .error e) :
    ∃ e2, procRows hdr rows = .error e2 := by
  induction rows with
  | nil => cases hmem
  | cons l ls ih =>
    rw [procRows]
    cases hl : procRow hdr l with
    | error e => exact ⟨e, rfl⟩
    | ok o =>
      rcases List.mem_cons.mp hmem with rfl | hmem2
      · rcases he with ⟨e, he⟩
        rw [hl] at he
        cases he
      · rcases ih hmem2 with ⟨e2, h2⟩
        rw [h2]
        exact ⟨e2, rfl⟩

/-- C6 counterexample: an event row with a well-formed nonempty store id
but an unparseable date aborts the whole read — it is not kept for the
win counts, so nothing is scored at all. -/
theorem C6_unparseable_date_fatal_cex :
    (read_events_csv ["store_id,date,rank", "S1,not-a-date,1"]).isOk = false := by
  decide

/-- C6 (amended): a data row whose store id is nonempty and whose date
field fails to parse makes `read_events_csv` fatal (it returns an error);
the row does not increment any count, because no per-store event table is
produced at all. -/
theorem C6_unparseable_date_fatal (lines : List String) (header : String)
    (rows : List String) (r : String)
    (hkept : lines.filter (fun l => !startswith "#" l) = header :: rows)
    (hmem : r ∈ rows)
    (hsid : ¬ pyStripStr ((colGet (splitComma header) (splitComma r) "store_id").getD "") = "")
    (hdate : ∃ ds, colGet (splitComma header) (splitComma r) "date" = Option.some ds
               ∧ ∃ e, parse_date ds = .error e) :
    ∃ e2, read_events_csv lines = .error e2 := by
  have hrow : ∃ e, procRow (splitComma header) r = .error e := by
    rcases hdate with ⟨ds, hds, e, he⟩
    rw [procRow, if_neg hsid, hds]
    simp only [he]
    exact ⟨e, rfl⟩
  rw [read_events_csv, hkept]
  exact procRows_error_of_mem (splitComma header) rows r hmem hrow

/-- Witness for C6 (amended) at the concrete bad row. -/
theorem C6_unparseable_date_fatal_witness :
    ∃ e2, read_events_csv ["store_id,date,rank", "S1,not-a-date,1"] = .error e2 :=
  C6_unparseable_date_fatal ["store_id,date,rank", "S1,not-a-date,1"]
    "store_id,date,rank" ["S1,not-a-date,1"] "S1,not-a-date,1"
    (by decide) (by decide) (by decide)
    ⟨"not-a-date", by decide, "unparseable year", rfl⟩

/-! ### C7 — a page-fetch failure aborts before any ledger write -/

/-- C7 counterexample: there is no invocation in which the run aborts on a
page-fetch failure and the persisted ledger has still been advanced — the
snapshot is written only after the whole fetch loop, so an aborted run
leaves the ledger file exactly as it was. -/
theorem C7_no_partial_advance_cex :
    ¬ ∃ (L : List LRow) (f : ℤ → Except Unit (List RawRec)) (dates : ℤ → String)
        (est : ℤ) (e : Unit),
        ingestE L f dates est = .error e ∧ ¬ persisted_ledger L f dates est = L := by
  rintro ⟨L, f, dates, est, e, he, hne⟩
  apply hne
  rw [persisted_ledger, he]

/-- A one-row ledger holding draw 1184, for the concrete C7 scenario. -/
def exLedger : List LRow := [⟨1184, "2025-08-09", 1, "가", "자동", "서울"⟩]

/-- A source where draw 1185 fetches fine and draw 1186 fails. -/
def exFetch : ℤ → Except Unit (List RawRec) := fun d =>
  if d = 1185 then .ok [("상회", "자동", "서울시 강남구", 2)]
  else if d = 1186 then .error () else .ok []

/-- C7 (amended): a page-fetch failure for a later draw id aborts the run
before the ledger file is rewritten, so the persisted ledger is not
advanced at all — the earlier draw ids fetched successfully in the same
invocation are discarded with the run's in-memory rows.  Concretely: with
draw 1184 present, fetch set [1185, 1186], a successful fetch of 1185 and
a failing fetch of 1186, the run aborts and the persisted ledger still
holds only draw 1184. -/
theorem C7_no_partial_advance_amended :
    exFetch 1185 = .ok [("상회", "자동", "서울시 강남구", 2)]
    ∧ toFetch exLedger 1186 = [1185, 1186]
    ∧ ingestE exLedger exFetch (fun _ => "2025-08-16") 1186 = .error ()
    ∧ persisted_ledger exLedger exFetch (fun _ => "2025-08-16") 1186 = exLedger := by
  refine ⟨rfl, by decide, ?_, ?_⟩
  · rfl
  · rfl

/-! ### C8 — rank markers in cells versus the table-level hint -/

/-- C8 (amended): for every emitted row, a `"1등"` marker anywhere in the
row's joined cell text forces rank 1; a `"2등"` marker forces rank 2 only
when the hint is unknown (0) and no `"1등"` marker is present — with a
nonzero hint and no `"1등"` marker the hint wins even against an explicit
`"2등"` marker; with no marker at all the rank is the hint. -/
theorem C8_rank_override (hint : ℕ) (tds : List String) (name choice addr : String)
    (rk : ℕ) (h : extract_row hint tds = Option.some (name, choice, addr, rk)) :
    (hasSubStr "1등" (pyJoin " " tds) = true → rk = 1)
    ∧ (hasSubStr "1등" (pyJoin " " tds) = false → hasSubStr "2등" (pyJoin " " tds) = true →
        hint = 0 → rk = 2)
    ∧ (hasSubStr "1등" (pyJoin " " tds) = false → hasSubStr "2등" (pyJoin " " tds) = true →
        ¬ hint = 0 → rk = hint)
    ∧ (hasSubStr "1등" (pyJoin " " tds) = false → hasSubStr "2등" (pyJoin " " tds) = false →
        rk = hint) := by
  simp only [extract_row] at h
  split at h
  · simp at h
  · split at h
    · simp at h
    · refine ⟨?_, ?_, ?_, ?_⟩
      · intro h1
        simp [h1] at h
        omega
      · intro h1 h2 h3
        simp [h1, h2, h3] at h
        omega
      · intro h1 h2 h3
        simp [h1, h2, h3] at h
        omega
      · intro h1 h2
        simp [h1, h2] at h
        omega

/-- C8 counterexample: a table whose header carries the `"1등"` hint and
whose row contains an explicit `"2등"` marker (and no `"1등"` marker in
the cells) is emitted with rank 1 — the marker does not override the
hint. -/
theorem C8_rank_override_cex :
    fetch_table_rows
        [⟨"1등 당첨판매점", [["1", "복돼지상회 2등", "서울시 강남구 1로 3", "자동"]]⟩]
      = [("복돼지상회 2등", "자동", "서울시 강남구 1로 3", 1)]
    ∧ hasSubStr "2등"
        (pyJoin " " ["1", "복돼지상회 2등", "서울시 강남구 1로 3", "자동"]) = true
    ∧ hasSubStr "1등"
        (pyJoin " " ["1", "복돼지상회 2등", "서울시 강남구 1로 3", "자동"]) = false := by
  refine ⟨by decide, by decide, by decide⟩

/-- Witness for C8 (amended): with unknown hint 0 and a `"2등"` marker the
emitted rank is 2. -/
theorem C8_rank_override_witness :
    (hasSubStr "1등" (pyJoin " " ["복돼지상회 2등", "서울시 강남구 1로 3", "자동"]) = true →
        (2 : ℕ) = 1)
    ∧ (hasSubStr "1등" (pyJoin " " ["복돼지상회 2등", "서울시 강남구 1로 3", "자동"]) = false →
        hasSubStr "2등" (pyJoin " " ["복돼지상회 2등", "서울시 강남구 1로 3", "자동"]) = true →
        (0 : ℕ) = 0 → (2 : ℕ) = 2)
    ∧ (hasSubStr "1등" (pyJoin " " ["복돼지상회 2등", "서울시 강남구 1로 3", "자동"]) = false →
        hasSubStr "2등" (pyJoin " " ["복돼지상회 2등", "서울시 강남구 1로 3", "자동"]) = true →
        ¬ (0 : ℕ) = 0 → (2 : ℕ) = 0)
    ∧ (hasSubStr "1등" (pyJoin " " ["복돼지상회 2등", "서울시 강남구 1로 3", "자동"]) = false →
        hasSubStr "2등" (pyJoin " " ["복돼지상회 2등", "서울시 강남구 1로 3", "자동"]) = false →
        (2 : ℕ) = 0) :=
  C8_rank_override 0 ["복돼지상회 2등", "서울시 강남구 1로 3", "자동"]
    "복돼지상회 2등" "자동" "서울시 강남구 1로 3" 2 (by decide)

/-! ### C2 — ingestion idempotence -/

theorem drawsOf_sortLedger (L : List LRow) : drawsOf (sortLedger L) = drawsOf L := by
  have hp : List.Perm (sortLedger L) L := List.perm_insertionSort rowLe L
  have hp2 : List.Perm ((sortLedger L).map (fun r => r.draw)) (L.map (fun r => r.draw)) :=
    List.Perm.map _ hp
  unfold drawsOf
  exact List.toFinset_eq_of_perm _ _ hp2

theorem drawsOf_append (L1 L2 : List LRow) :
    drawsOf (L1 ++ L2) = drawsOf L1 ∪ drawsOf L2 := by
  unfold drawsOf
  rw [List.map_append, List.toFinset_append]

theorem rawToRow_draw (d : ℤ) (dd : String) (x : RawRec) : (rawToRow d dd x).draw = d := rfl

theorem mem_drawsOf_flatMap {f : ℤ → List RawRec} {dates : ℤ → String} {ds : List ℤ}
    {x : ℤ} :
    x ∈ drawsOf (ds.flatMap (fun d => (f d).map (rawToRow d (dates d))))
      ↔ (x ∈ ds ∧ ¬ f x = []) := by
  unfold drawsOf
  rw [List.mem_toFinset]
  simp only [List.mem_map, List.mem_flatMap]
  constructor
  · rintro ⟨r, ⟨d, hd, raw, hraw, hrr⟩, hx⟩
    have hdr : r.draw = d := by rw [← hrr, rawToRow_draw]
    have hxd : x = d := by rw [← hx, hdr]
    subst hxd
    exact ⟨hd, fun hnil => by rw [hnil] at hraw; cases hraw⟩
  · rintro ⟨hx, hf⟩
    rcases List.exists_mem_of_ne_nil (f x) hf with ⟨raw, hraw⟩
    exact ⟨rawToRow x (dates x) raw, ⟨x, hx, raw, hraw, rfl⟩, rfl⟩

theorem mem_drawsOf_ingest {L : List LRow} {f : ℤ → List RawRec} {dates : ℤ → String}
    {est x : ℤ} :
    x ∈ drawsOf (ingest L f dates est)
      ↔ x ∈ drawsOf L ∨ (x ∈ toFetch L est ∧ ¬ f x = []) := by
  rw [ingest, drawsOf_sortLedger, drawsOf_append, Finset.mem_union, mem_drawsOf_flatMap]

theorem drawsOf_eq_empty_iff {L : List LRow} : drawsOf L = ∅ ↔ L = [] := by
  unfold drawsOf
  rw [List.toFinset_eq_empty_iff, List.map_eq_nil_iff]

theorem flatMap_eq_nil_of_forall {ds : List ℤ} {g : ℤ → List LRow}
    (h : ∀ d ∈ ds, g d = []) : ds.flatMap g = [] := by
  induction ds with
  | nil => rfl
  | cons d rest ih =>
    rw [List.flatMap_cons, h d (List.mem_cons_self d rest),
      ih (fun u hu => h u (List.mem_cons_of_mem d hu))]
    rfl

theorem sortLedger_sorted (L : List LRow) : List.Sorted rowLe (sortLedger L) :=
  List.sorted_insertionSort rowLe L

theorem sortLedger_ingest_eq (L : List LRow) (f : ℤ → List RawRec) (dates : ℤ → String)
    (est : ℤ) : sortLedger (ingest L f dates est) = ingest L f dates est :=
  List.Sorted.insertionSort_eq (sortLedger_sorted _)

/-- Every draw in the fetch set of a second run over the output of a first
run fetched empty in the first run. -/
theorem toFetch_ingest_fetches_nothing (L : List LRow) (f : ℤ → List RawRec)
    (dates : ℤ → String) (est : ℤ) :
    ∀ d ∈ toFetch (ingest L f dates est) est, f d = [] := by
  intro d hd
  by_contra hne
  by_cases hv : drawsOf L = ∅
  · -- first run had an empty ledger: toFetch L est = [est]
    have hfetch1 : toFetch L est = [est] := toFetch_empty hv
    have hmem1 : ∀ x, x ∈ drawsOf (ingest L f dates est) ↔ (x = est ∧ ¬ f x = []) := by
      intro x
      rw [mem_drawsOf_ingest, hv, hfetch1]
      simp
    by_cases hv1 : drawsOf (ingest L f dates est) = ∅
    · rw [toFetch_empty hv1] at hd
      have hde : d = est := by
        rcases List.mem_singleton.mp hd with rfl
        rfl
      have : d ∈ drawsOf (ingest L f dates est) := (hmem1 d).mpr ⟨hde, hne⟩
      rw [hv1] at this
      cases this
    · rcases (mem_toFetch_nonempty hv1).mp hd with ⟨hmin, hle, hnotin⟩
      -- the second-run ledger's draw set is exactly {est}
      have hsub : drawsOf (ingest L f dates est) = {est} := by
        rcases Finset.nonempty_iff_ne_empty.mpr hv1 with ⟨y, hy⟩
        have hy2 := (hmem1 y).mp hy
        apply Finset.eq_singleton_iff_unique_mem.mpr
        refine ⟨?_, ?_⟩
        · exact hy2.1 ▸ hy
        · intro z hz
          exact ((hmem1 z).mp hz).1
      have hmin_est :
          (insert est (drawsOf (ingest L f dates est))).min'
            ⟨est, Finset.mem_insert_self est _⟩ = est := by
        rw [hsub]
        simp
      rw [hmin_est] at hmin
      have hde : d = est := le_antisymm hle hmin
      exact hnotin ((hmem1 d).mpr ⟨hde, hne⟩)
  · -- first run had a nonempty ledger
    have hv1 : ¬ drawsOf (ingest L f dates est) = ∅ := by
      rcases Finset.nonempty_iff_ne_empty.mpr hv with ⟨y, hy⟩
      intro hcon
      have : y ∈ drawsOf (ingest L f dates est) := mem_drawsOf_ingest.mpr (Or.inl hy)
      rw [hcon] at this
      cases this
    rcases (mem_toFetch_nonempty hv1).mp hd with ⟨hmin1, hle, hnotin⟩
    have hne_first : (insert est (drawsOf L)).Nonempty := ⟨est, Finset.mem_insert_self _ _⟩
    set m := (insert est (drawsOf L)).min' hne_first with hm
    -- the minimum is unchanged by the first run
    have hmin_eq :
        (insert est (drawsOf (ingest L f dates est))).min'
          ⟨est, Finset.mem_insert_self est _⟩ = m := by
      apply le_antisymm
      · -- min of the larger set is at most m, since m is a member
        apply Finset.min'_le
        rcases Finset.mem_insert.mp (Finset.min'_mem _ hne_first) with hme | hmL
        · rw [← hm] at hme
          rw [hme]
          exact Finset.mem_insert_self _ _
        · rw [← hm] at hmL
          exact Finset.mem_insert_of_mem (mem_drawsOf_ingest.mpr (Or.inl hmL))
      · -- m is a lower bound of the larger set
        apply Finset.le_min'
        intro y hy
        rcases Finset.mem_insert.mp hy with rfl | hyM
        · exact Finset.min'_le _ _ (Finset.mem_insert_self _ _)
        · rcases mem_drawsOf_ingest.mp hyM with hyL | ⟨hyF, _⟩
          · exact Finset.min'_le _ _ (Finset.mem_insert_of_mem hyL)
          · exact ((mem_toFetch_nonempty hv).mp hyF).1
    rw [hmin_eq] at hmin1
    have hdL : d ∉ drawsOf L := fun hdl =>
      hnotin (mem_drawsOf_ingest.mpr (Or.inl hdl))
    have hdF : d ∈ toFetch L est := (mem_toFetch_nonempty hv).mpr ⟨hmin1, hle, hdL⟩
    exact hnotin (mem_drawsOf_ingest.mpr (Or.inr ⟨hdF, hne⟩))

/-- C2: a draw id already present in the ledger is never in the fetch set,
and a second ingestion run over the first run's output, against the same
source and the same estimated current draw, rewrites exactly the same
ledger snapshot (no duplicate rows, no size change). -/
theorem C2_ingestion_idempotent (L : List LRow) (f : ℤ → List RawRec)
    (dates : ℤ → String) (est : ℤ) :
    (∀ d ∈ drawsOf L, d ∉ toFetch L est)
    ∧ ingest (ingest L f dates est) f dates est = ingest L f dates est := by
  constructor
  · intro d hd hmem
    by_cases hv : drawsOf L = ∅
    · rw [hv] at hd
      cases hd
    · exact ((mem_toFetch_nonempty hv).mp hmem).2.2 hd
  · have hkey := toFetch_ingest_fetches_nothing L f dates est
    have hnil : (toFetch (ingest L f dates est) est).flatMap
        (fun d => (f d).map (rawToRow d (dates d))) = [] := by
      apply flatMap_eq_nil_of_forall
      intro d hd
      rw [hkey d hd]
      rfl
    rw [ingest, hnil, List.append_nil, sortLedger_ingest_eq]

/-- Witness for C2 at a concrete ledger and source. -/
theorem C2_ingestion_idempotent_witness :
    ((1184 : ℤ) ∈ drawsOf exLedger → (1184 : ℤ) ∉ toFetch exLedger 1186)
    ∧ ingest (ingest exLedger (fun d => if d = 1185 then [("상회", "자동", "서울시 강남구", 2)] else [])
          (fun _ => "2025-08-16") 1186)
        (fun d => if d = 1185 then [("상회", "자동", "서울시 강남구", 2)] else [])
        (fun _ => "2025-08-16") 1186
      = ingest exLedger (fun d => if d = 1185 then [("상회", "자동", "서울시 강남구", 2)] else [])
          (fun _ => "2025-08-16") 1186 :=
  ⟨fun hmem =>
    (C2_ingestion_idempotent exLedger
      (fun d => if d = 1185 then [("상회", "자동", "서울시 강남구", 2)] else [])
      (fun _ => "2025-08-16") 1186).1 1184 hmem,
   (C2_ingestion_idempotent exLedger
      (fun d => if d = 1185 then [("상회", "자동", "서울시 강남구", 2)] else [])
      (fun _ => "2025-08-16") 1186).2⟩

/-! ### C9 — the enriched registry only touches the six derived fields -/

theorem getProp_setProp_ne (k k' : String) (v : PVal) (ps : List (String × PVal))
    (h : ¬ k = k') : getProp k (setProp k' v ps) = getProp k ps := by
  induction ps with
  | nil => simp [setProp, getProp, List.lookup_cons, beq_false_of_ne h]
  | cons p rest ih =>
    obtain ⟨k0, v0⟩ := p
    by_cases h0 : k0 = k'
    · subst h0
      simp [setProp, getProp, List.lookup_cons, beq_false_of_ne h]
    · simp only [getProp] at ih
      simp [setProp, h0, getProp, List.lookup_cons, ih]

theorem getProp_setProp_eq (k : String) (v : PVal) (ps : List (String × PVal)) :
    getProp k (setProp k v ps) = Option.some v := by
  induction ps with
  | nil => simp [setProp, getProp, List.lookup_cons]
  | cons p rest ih =>
    obtain ⟨k0, v0⟩ := p
    by_cases h0 : k0 = k
    · subst h0
      simp [setProp, getProp, List.lookup_cons]
    · simp only [getProp] at ih
      simp [setProp, h0, getProp, List.lookup_cons, beq_false_of_ne (Ne.symm h0), ih]

/-- The six writes of the scorer do not touch any non-derived key. -/
theorem enrichProps_frame (a : Agg) (lastVal : PVal) (ps : List (String × PVal))
    (k : String) (hk : ¬ k ∈ derivedKeys) :
    getProp k (enrichProps a lastVal ps) = getProp k ps := by
  have hks : ¬ k = "win1" ∧ ¬ k = "win2" ∧ ¬ k = "score" ∧ ¬ k = "last_win_date"
      ∧ ¬ k = "recent12m_win1" ∧ ¬ k = "recent12m_win2" := by
    simp only [derivedKeys, List.mem_cons, List.not_mem_nil, or_false] at hk
    tauto
  rw [enrichProps, getProp_setProp_ne _ _ _ _ hks.2.2.2.2.2,
    getProp_setProp_ne _ _ _ _ hks.2.2.2.2.1, getProp_setProp_ne _ _ _ _ hks.2.2.2.1,
    getProp_setProp_ne _ _ _ _ hks.2.2.1, getProp_setProp_ne _ _ _ _ hks.2.1,
    getProp_setProp_ne _ _ _ _ hks.1]

/-- The six writes of the scorer set every derived key. -/
theorem enrichProps_writes (a : Agg) (lastVal : PVal) (ps : List (String × PVal))
    (k2 : String) (hk2 : k2 ∈ derivedKeys) :
    (getProp k2 (enrichProps a lastVal ps)).isSome = true := by
  simp only [derivedKeys, List.mem_cons, List.not_mem_nil, or_false] at hk2
  rw [enrichProps]
  rcases hk2 with rfl | rfl | rfl | rfl | rfl | rfl
  · rw [getProp_setProp_ne _ _ _ _ (by decide), getProp_setProp_ne _ _ _ _ (by decide),
      getProp_setProp_ne _ _ _ _ (by decide), getProp_setProp_ne _ _ _ _ (by decide),
      getProp_setProp_ne _ _ _ _ (by decide), getProp_setProp_eq]
    rfl
  · rw [getProp_setProp_ne _ _ _ _ (by decide), getProp_setProp_ne _ _ _ _ (by decide),
      getProp_setProp_ne _ _ _ _ (by decide), getProp_setProp_ne _ _ _ _ (by decide),
      getProp_setProp_eq]
    rfl
  · rw [getProp_setProp_ne _ _ _ _ (by decide), getProp_setProp_ne _ _ _ _ (by decide),
      getProp_setProp_ne _ _ _ _ (by decide), getProp_setProp_eq]
    rfl
  · rw [getProp_setProp_ne _ _ _ _ (by decide), getProp_setProp_ne _ _ _ _ (by decide),
      getProp_setProp_eq]
    rfl
  · rw [getProp_setProp_ne _ _ _ _ (by decide), getProp_setProp_eq]
    rfl
  · rw [getProp_setProp_eq]
    rfl

/-- The enrichment step preserves the geometry and every non-derived
property of a feature, and writes every derived key. -/
theorem enrich_frame (ev : String → List (PyDate × ℤ)) (today : PyDate) (hl : ℝ)
    (f : Feature) (k : String) (hk : ¬ k ∈ derivedKeys) :
    (enrich ev today hl f).1.geometry = f.geometry
    ∧ getProp k (enrich ev today hl f).1.props = getProp k f.props :=
  ⟨rfl, enrichProps_frame _ _ f.props k hk⟩

theorem enrich_writes_derived (ev : String → List (PyDate × ℤ)) (today : PyDate)
    (hl : ℝ) (f : Feature) (k2 : String) (hk2 : k2 ∈ derivedKeys) :
    (getProp k2 (enrich ev today hl f).1.props).isSome = true :=
  enrichProps_writes _ _ f.props k2 hk2

/-- C9: the enriched registry is a copy of the input registry — same
number of features, each feature keeping its geometry and every
non-derived property unchanged — in which all six derived keys are
written. -/
theorem C9_registry_frame (feats : List Feature) (ev : String → List (PyDate × ℤ))
    (today : PyDate) (hl : ℝ) (j : ℕ) (k : String) (hk : ¬ k ∈ derivedKeys) :
    (compute_scores feats ev today hl).1.length = feats.length
    ∧ ((compute_scores feats ev today hl).1.get? j).map Feature.geometry
        = (feats.get? j).map Feature.geometry
    ∧ ((compute_scores feats ev today hl).1.get? j).map (fun f => getProp k f.props)
        = (feats.get? j).map (fun f => getProp k f.props)
    ∧ (∀ k2 ∈ derivedKeys,
        ((compute_scores feats ev today hl).1.get? j).map
            (fun f => (getProp k2 f.props).isSome)
          = (feats.get? j).map (fun _ => true)) := by
  have hout : (compute_scores feats ev today hl).1
      = feats.map (fun f => (enrich ev today hl f).1) := by
    rw [compute_scores]
    rw [List.map_map]
    rfl
  rw [hout]
  refine ⟨by rw [List.length_map], ?_, ?_, ?_⟩
  · rw [List.get?_eq_getElem?, List.get?_eq_getElem?, List.getElem?_map]
    cases hj : feats[j]? with
    | none => rfl
    | some f => simp [(enrich_frame ev today hl f k hk).1]
  · rw [List.get?_eq_getElem?, List.get?_eq_getElem?, List.getElem?_map]
    cases hj : feats[j]? with
    | none => rfl
    | some f => simp [(enrich_frame ev today hl f k hk).2]
  · intro k2 hk2
    rw [List.get?_eq_getElem?, List.get?_eq_getElem?, List.getElem?_map]
    cases hj : feats[j]? with
    | none => rfl
    | some f => simp [enrich_writes_derived ev today hl f k2 hk2]

/-- A concrete one-feature registry for the C9 witness. -/
def wFeats : List Feature :=
  [⟨PVal.null, [("store_id", PVal.s "S1"), ("name", PVal.s "가게")]⟩]

/-- Witness for C9 at a concrete one-feature registry. -/
theorem C9_registry_frame_witness :
    ((compute_scores wFeats (fun _ => []) ⟨2025, 1, 1⟩ 12).1.length = 1)
    ∧ ((compute_scores wFeats (fun _ => []) ⟨2025, 1, 1⟩ 12).1.get? 0).map
          (fun f => getProp "name" f.props)
        = (wFeats.get? 0).map (fun f => getProp "name" f.props) :=
  ⟨(C9_registry_frame wFeats (fun _ => []) ⟨2025, 1, 1⟩ 12 0 "name" (by decide)).1,
   (C9_registry_frame wFeats (fun _ => []) ⟨2025, 1, 1⟩ 12 0 "name" (by decide)).2.2.1⟩

/-! ### C1 — the end-to-end scoring scenario -/

/-- The registry feature S1 of the end-to-end scenario. -/
def s1Feature : Feature :=
  ⟨PVal.null, [("store_id", PVal.s "S1"), ("name", PVal.s "ABC마트"),
    ("address", PVal.s "서울시 강남구 1길 2")]⟩

/-- One matched event: store S1, 2024-01-01, rank 1. -/
def s1Events : String → List (PyDate × ℤ) :=
  events_of [("S1", ⟨2024, 1, 1⟩, 1)]

theorem s1_evs : evsFor s1Events (getProp "store_id" s1Feature.props)
    = [(⟨2024, 1, 1⟩, (1 : ℤ))] := rfl

/-- The event fold on the single S1 event: 2025-01-01 minus 2024-01-01 is
366 days (2024 is a leap year), so the decay exponent is
(366 / 30.4375) / 12 and the event is outside the 365.25-day window. -/
theorem s1_agg :
    aggEvents ⟨2025, 1, 1⟩ 12 [(⟨2024, 1, 1⟩, (1 : ℤ))]
      = ⟨5 * (1 / 2 : ℝ) ^ (((366 : ℝ) / 30.4375) / 12), 1, 0,
          Option.some ⟨2024, 1, 1⟩, 0, 0⟩ := by
  have hdiff : dateDiffDays ⟨2025, 1, 1⟩ ⟨2024, 1, 1⟩ = 366 := by decide
  have hwin : ¬ ((dateDiffDays ⟨2025, 1, 1⟩ ⟨2024, 1, 1⟩ : ℚ) ≤ 365.25) := by
    rw [hdiff]
    norm_num
  rw [aggEvents, List.foldl_cons, List.foldl_nil, stepEvent]
  simp only [months_elapsed, hdiff, AVG_DAYS_PER_MONTH, hwin]
  norm_num

/-- The summary row produced for S1 in the end-to-end scenario. -/
theorem s1_summary :
    (compute_scores [s1Feature] s1Events ⟨2025, 1, 1⟩ 12).2
      = [⟨Option.some (PVal.s "S1"), 1, 0,
           round6 (5 * (1 / 2 : ℝ) ^ (((366 : ℝ) / 30.4375) / 12)),
           "2024-01-01", 0, 0⟩] := by
  have henr : (enrich s1Events ⟨2025, 1, 1⟩ 12 s1Feature).2
      = ⟨Option.some (PVal.s "S1"), 1, 0,
          round6 (5 * (1 / 2 : ℝ) ^ (((366 : ℝ) / 30.4375) / 12)),
          "2024-01-01", 0, 0⟩ := by
    simp only [enrich]
    rw [s1_evs, s1_agg]
    rfl
  rw [compute_scores]
  simp only [List.map_cons, List.map_nil]
  rw [henr]

/-- Lower bound `2.0000009 < 2 ^ (366/365.25)` via `exp t ≥ 1 + t` and the
decimal bound on `log 2`. -/
theorem two_rpow_lower :
    (2.0000009 : ℝ) < (2 : ℝ) ^ (((366 : ℝ) / 30.4375) / 12) := by
  have ha : ((366 : ℝ) / 30.4375) / 12 = 1 + 0.75 / 365.25 := by norm_num
  rw [ha, Real.rpow_add (by norm_num : (0 : ℝ) < 2), Real.rpow_one]
  have hb0 : (0 : ℝ) ≤ 0.75 / 365.25 := by norm_num
  have h2b : (2 : ℝ) ^ ((0.75 : ℝ) / 365.25)
      = Real.exp (Real.log 2 * (0.75 / 365.25)) :=
    Real.rpow_def_of_pos (by norm_num) _
  have hexp : Real.log 2 * (0.75 / 365.25) + 1
      ≤ Real.exp (Real.log 2 * (0.75 / 365.25)) :=
    Real.add_one_le_exp _
  have hlog : (0.6931471803 : ℝ) * (0.75 / 365.25) ≤ Real.log 2 * (0.75 / 365.25) :=
    mul_le_mul_of_nonneg_right (le_of_lt Real.log_two_gt_d9) hb0
  have hlb : (0.6931471803 : ℝ) * (0.75 / 365.25) + 1 ≤ (2 : ℝ) ^ ((0.75 : ℝ) / 365.25) := by
    rw [h2b]
    linarith
  linarith

/-- The rounded score of the scenario is strictly below 2.5: the event is
366 days old, not 365.25, so the decayed score is about 2.496444. -/
theorem s1_score_lt :
    round6 (5 * (1 / 2 : ℝ) ^ (((366 : ℝ) / 30.4375) / 12)) < 5 / 2 := by
  have hpos : (0 : ℝ) < (2 : ℝ) ^ (((366 : ℝ) / 30.4375) / 12) :=
    Real.rpow_pos_of_pos (by norm_num) _
  have hinv : (1 / 2 : ℝ) ^ (((366 : ℝ) / 30.4375) / 12)
      = ((2 : ℝ) ^ (((366 : ℝ) / 30.4375) / 12))⁻¹ := by
    rw [show (1 / 2 : ℝ) = (2 : ℝ)⁻¹ by norm_num,
      Real.inv_rpow (by norm_num : (0 : ℝ) ≤ 2)]
  have hlt : ((2 : ℝ) ^ (((366 : ℝ) / 30.4375) / 12))⁻¹ < (2.0000009 : ℝ)⁻¹ :=
    inv_strictAnti₀ (by norm_num) two_rpow_lower
  have hx : 5 * (1 / 2 : ℝ) ^ (((366 : ℝ) / 30.4375) / 12) < 2.4999995 := by
    rw [hinv]
    have h5 : 5 * ((2 : ℝ) ^ (((366 : ℝ) / 30.4375) / 12))⁻¹ < 5 * (2.0000009 : ℝ)⁻¹ := by
      exact mul_lt_mul_of_pos_left hlt (by norm_num)
    have h6 : (5 : ℝ) * (2.0000009 : ℝ)⁻¹ < 2.4999995 := by norm_num
    linarith
  rw [round6]
  have h2 : round (5 * (1 / 2 : ℝ) ^ (((366 : ℝ) / 30.4375) / 12) * 1000000)
      < (2500000 : ℤ) := by
    rw [round_eq]
    apply Int.floor_lt.mpr
    push_cast
    linarith
  have h3 : ((round (5 * (1 / 2 : ℝ) ^ (((366 : ℝ) / 30.4375) / 12) * 1000000) : ℤ) : ℝ)
      < 2500000 := by
    exact_mod_cast h2
  have h4 : ((round (5 * (1 / 2 : ℝ) ^ (((366 : ℝ) / 30.4375) / 12) * 1000000) : ℤ) : ℝ)
        / 1000000 < (2500000 : ℝ) / 1000000 :=
    (div_lt_div_iff_of_pos_right (by norm_num)).mpr h3
  have h5 : ((2500000 : ℝ)) / 1000000 = 5 / 2 := by norm_num
  linarith

/-- C1 counterexample: in the end-to-end scenario the emitted a3 score is
not 2.5 — the event is 366 days old, so its decay exponent exceeds 1. -/
theorem C1_end_to_end_cex :
    ¬ ((compute_scores [s1Feature] s1Events ⟨2025, 1, 1⟩ 12).2.map
        (fun r => r.a3_score) = [(5 / 2 : ℝ)]) := by
  rw [s1_summary]
  simp only [List.map_cons, List.map_nil]
  intro hcon
  have h1 : round6 (5 * (1 / 2 : ℝ) ^ (((366 : ℝ) / 30.4375) / 12)) = 5 / 2 := by
    simpa using hcon
  exact absurd h1 (ne_of_lt s1_score_lt)

/-- C1 (amended): the scenario yields win1 = 1, win2 = 0,
recent12m_win1 = 0 (and recent12m_win2 = 0, last_win_date 2024-01-01), and
score = round(5 × 0.5^((366/30.4375)/12), 6), which is strictly less than
2.5 (≈ 2.496444) because (2025-01-01 − 2024-01-01).days = 366, not 365.25. -/
theorem C1_end_to_end_amended :
    (compute_scores [s1Feature] s1Events ⟨2025, 1, 1⟩ 12).2
      = [⟨Option.some (PVal.s "S1"), 1, 0,
           round6 (5 * (1 / 2 : ℝ) ^ (((366 : ℝ) / 30.4375) / 12)),
           "2024-01-01", 0, 0⟩]
    ∧ round6 (5 * (1 / 2 : ℝ) ^ (((366 : ℝ) / 30.4375) / 12)) < 5 / 2 :=
  ⟨s1_summary, s1_score_lt⟩

end Lottang
